import Mathlib

/-!
Shallow embedding of the footage-tracker service (src/main.py).

The service keeps a single SQLite table of file records and exposes
ingestion (insert-if-absent keyed on path), queue queries, search,
aggregate stats and processing-state transitions.  The embedding models
the table as a list of records together with the AUTOINCREMENT counter,
and models CURRENT_TIMESTAMP by passing the clock value explicitly.
-/

/-- One row of the `files` table (src/main.py, init_database). -/
structure FileRecord where
  id : Nat
  path : String
  filename : String
  parent_directory : String
  file_type : String
  size_bytes : Nat
  created_at : Nat
  discovered_at : Nat
  processed : Bool
  processed_at : Option Nat
  is_directory : Bool
deriving DecidableEq

/-- The database: rows in insertion order plus the AUTOINCREMENT counter. -/
structure Store where
  recs : List FileRecord
  nextId : Nat
deriving DecidableEq

def emptyStore : Store := { recs := [], nextId := 1 }

/-- Errors surfaced by the endpoints: HTTP 404 (HTTPException in the
source). -/
inductive DbError where
  | notFound
deriving DecidableEq

/-- ASCII lower-casing of a string, character by character; models
Python str.lower restricted to the ASCII range used by the code. -/
def lowerStr (s : String) : String := String.mk (s.data.map Char.toLower)

/-- Index of the last '.' in a character list, if any (Python str.rfind). -/
def rfindDot : List Char → Option Nat
  | [] => none
  | c :: cs =>
    match rfindDot cs with
    | some i => some (i + 1)
    | none => if c = '.' then some 0 else none

/-- pathlib's Path.suffix on a final path component: the substring from
the last dot when that dot is neither the first nor the last character,
otherwise the empty string. -/
def suffixOf (name : String) : String :=
  let cs := name.data
  match rfindDot cs with
  | some i => if 0 < i ∧ i < cs.length - 1 then String.mk (cs.drop i) else ""
  | none => ""

/-- src/main.py get_file_type: directories are "directory"; files are
classified by lower-cased extension. -/
def get_file_type (isDir : Bool) (name : String) : String :=
  if isDir then "directory"
  else
    let extension := lowerStr (suffixOf name)
    if extension = ".jpg" ∨ extension = ".jpeg" then "image"
    else if extension = ".mp4" ∨ extension = ".blk" then "video"
    else "other"

/-- src/main.py insert_file_to_db: INSERT OR IGNORE keyed on the UNIQUE
path column — if a row with that path exists the statement is a no-op,
otherwise a fresh row is appended with discovered_at defaulting to
CURRENT_TIMESTAMP (the explicit clock argument here). -/
def insert_file_to_db (path filename parent ftype : String) (size ctime : Nat)
    (isDir : Bool) (now : Nat) (st : Store) : Store :=
  if st.recs.any (fun r => r.path = path) then st
  else
    { recs := st.recs ++
        [{ id := st.nextId, path := path, filename := filename,
           parent_directory := parent, file_type := ftype, size_bytes := size,
           created_at := ctime, discovered_at := now, processed := false,
           processed_at := none, is_directory := isDir }],
      nextId := st.nextId + 1 }

/-- A filesystem entry as the scanner sees it: files carry the stat
size and ctime; directories carry ctime, a readability flag (iterdir
raises PermissionError when false) and their children. -/
inductive Entry where
  | file : String → Nat → Nat → Entry
  | dir : String → Nat → Bool → List Entry → Entry

def Entry.name : Entry → String
  | .file n _ _ => n
  | .dir n _ _ _ => n

def Entry.ctime : Entry → Nat
  | .file _ _ c => c
  | .dir _ c _ _ => c

def Entry.isDir : Entry → Bool
  | .file _ _ _ => false
  | .dir _ _ _ _ => true

/-- size_bytes as computed in insert_file_to_db: 0 for directories,
stat().st_size for files. -/
def Entry.sizeBytes : Entry → Nat
  | .file _ s _ => s
  | .dir _ _ _ _ => 0

def entryPath (parent : String) (e : Entry) : String :=
  parent ++ "/" ++ e.name

/-- Ingestion of one observed entry: compute the derived columns the way
insert_file_to_db does and attempt the insert-if-absent write. -/
def ingest (parent : String) (now : Nat) (e : Entry) (st : Store) : Store :=
  insert_file_to_db (entryPath parent e) e.name parent
    (get_file_type e.isDir e.name) e.sizeBytes e.ctime e.isDir now st

/-- Number of rows whose path equals p. -/
def countPath (st : Store) (p : String) : Nat :=
  st.recs.countP (fun r => r.path = p)

/-- Path uniqueness of the table (the UNIQUE constraint). -/
def uniquePaths (st : Store) : Prop :=
  st.recs.Pairwise (fun a b => a.path ≠ b.path)

/-- src/main.py mark_as_processed: UPDATE ... SET processed = TRUE,
processed_at = CURRENT_TIMESTAMP WHERE id = ?; when the cursor reports
zero changed rows the endpoint raises HTTP 404 (NotFound). -/
def mark_as_processed (file_id : Nat) (now : Nat) (st : Store) : Except DbError Store :=
  let matched := st.recs.countP (fun r => r.id == file_id)
  if matched = 0 then .error .notFound
  else
    .ok { st with
      recs := st.recs.map (fun r =>
        if r.id = file_id then { r with processed := true, processed_at := some now }
        else r) }

/-- src/main.py process_batch: UPDATE ... WHERE id IN (?,...,?) with one
placeholder per id, returning the changed-row count.  SQLite accepts an
empty list on the right of IN (a documented extension: WHERE id IN ()
is valid and matches no rows), so the statement succeeds for every id
list and the empty list yields a count of 0.  The Except layer is the
endpoint's error channel, shared with mark_as_processed; this endpoint
never uses it. -/
def process_batch (file_ids : List Nat) (now : Nat) (st : Store) :
    Except DbError (Store × Nat) :=
  .ok ({ st with
          recs := st.recs.map (fun r =>
            if file_ids.contains r.id then
              { r with processed := true, processed_at := some now }
            else r) },
       st.recs.countP (fun r => file_ids.contains r.id))

def byDiscoveredAsc (a b : FileRecord) : Bool := a.discovered_at ≤ b.discovered_at

def byDiscoveredDesc (a b : FileRecord) : Bool := b.discovered_at ≤ a.discovered_at

/-- src/main.py get_unprocessed_files: the Python truthiness test
`if file_type:` drops the type filter for None and for the empty
string; rows are ordered by discovered_at ASC and limited. -/
def get_unprocessed_files (limit : Nat) (file_type : Option String) (st : Store) :
    List FileRecord :=
  let rows : List FileRecord :=
    match file_type with
    | some ft =>
      if ft ≠ "" then
        st.recs.filter (fun r => !r.processed && !r.is_directory && r.file_type == ft)
      else
        st.recs.filter (fun r => !r.processed && !r.is_directory)
    | none => st.recs.filter (fun r => !r.processed && !r.is_directory)
  (rows.mergeSort byDiscoveredAsc).take limit

/-- SQLite LIKE on character lists: '%' matches any sequence, '_' any
single character, and other characters compare with ASCII case folding
(SQLite's default case-insensitive LIKE; Char.toLower folds exactly
the ASCII range A-Z). -/
def likeMatch (p s : List Char) : Bool :=
  match p, s with
  | [], [] => true
  | [], _ :: _ => false
  | '%' :: ps, s =>
    likeMatch ps s ||
      (match s with
       | [] => false
       | _ :: cs => likeMatch ('%' :: ps) cs)
  | '_' :: _, [] => false
  | '_' :: ps, _ :: cs => likeMatch ps cs
  | _ :: _, [] => false
  | c :: ps, d :: cs => (c.toLower = d.toLower) && likeMatch ps cs
termination_by (p.length, s.length)

def sqliteLike (pat s : String) : Bool := likeMatch pat.data s.data

/-- src/main.py search_files: AND-composed optional filters (each
skipped when the parameter is None or empty by Python truthiness),
filename and parent_directory matched with LIKE against the filter
wrapped in percent signs, file_type compared exactly; rows ordered by
discovered_at DESC and limited. -/
def search_files (filename directory file_type : Option String) (limit : Nat)
    (st : Store) : List FileRecord :=
  let cond := fun r : FileRecord =>
    !r.is_directory
    && (match filename with
        | some f => if f ≠ "" then sqliteLike ("%" ++ f ++ "%") r.filename else true
        | none => true)
    && (match directory with
        | some d => if d ≠ "" then sqliteLike ("%" ++ d ++ "%") r.parent_directory else true
        | none => true)
    && (match file_type with
        | some t => if t ≠ "" then r.file_type == t else true
        | none => true)
  ((st.recs.filter cond).mergeSort byDiscoveredDesc).take limit

/-- Python round(x, 2) on the exact rational value: scale by 100 and
round half to even (banker's rounding), then scale back. -/
def pyRound2 (q : ℚ) : ℚ :=
  let x := q * 100
  let f : ℤ := ⌊x⌋
  let frac := x - (f : ℚ)
  let n : ℤ :=
    if frac < 1 / 2 then f
    else if 1 / 2 < frac then f + 1
    else if f % 2 = 0 then f else f + 1
  (n : ℚ) / 100

/-- The response shape of GET /stats. -/
structure Stats where
  total_files : Nat
  total_directories : Nat
  processed_files : Nat
  unprocessed_files : Nat
  by_type : List (String × Nat)
  total_size_mb : ℚ
deriving DecidableEq

/-- src/main.py get_stats: independent aggregate reads over the files
table; by_type is the GROUP BY file_type result for non-directory rows
(an association list of distinct types with their counts); total size
is SUM(size_bytes) over non-directory rows (0 when NULL), divided by
1024 * 1024 and rounded to 2 decimals. -/
def get_stats (st : Store) : Stats :=
  let files := st.recs.filter (fun r => !r.is_directory)
  { total_files := files.length,
    total_directories := st.recs.countP (fun r => r.is_directory),
    processed_files := st.recs.countP (fun r => r.processed && !r.is_directory),
    unprocessed_files := st.recs.countP (fun r => !r.processed && !r.is_directory),
    by_type := ((files.map (fun r => r.file_type)).eraseDups).map
      (fun t => (t, files.countP (fun r => r.file_type == t))),
    total_size_mb := pyRound2 (((files.map (fun r => r.size_bytes)).sum : ℚ) / (1024 * 1024)) }

/-- src/main.py initial_scan, scan_recursive: iterate over the entries
of a directory; each entry is ingested and counted, directories are
recursed into.  The try/except around the loop means an unreadable
directory contributes nothing from its own children (iterdir raises
PermissionError immediately), while its siblings are still scanned. -/
def scanList (now : Nat) : String → List Entry → Store → Nat → Store × Nat
  | _, [], st, cnt => (st, cnt)
  | p, e :: es, st, cnt =>
    let st1 := ingest p now e st
    let acc :=
      match e with
      | .file _ _ _ => (st1, cnt + 1)
      | .dir name _ readable children =>
        if readable then scanList now (p ++ "/" ++ name) children st1 (cnt + 1)
        else (st1, cnt + 1)
    scanList now p es acc.1 acc.2

/-- src/main.py initial_scan on an existing root: scan the root's
children starting from a zero counter, returning the final store and
the items_added counter. -/
def initial_scan (now : Nat) (rootPath : String) (rootChildren : List Entry)
    (st : Store) : Store × Nat :=
  scanList now rootPath rootChildren st 0

/-- Number of entries the scanner visits: every entry of a readable
directory, where an unreadable directory is itself visited but its
children are not. -/
def countVisited : List Entry → Nat
  | [] => 0
  | .file _ _ _ :: es => 1 + countVisited es
  | .dir _ _ readable children :: es =>
    (if readable then 1 + countVisited children else 1) + countVisited es

/-- Paths of the entries the scanner visits, in visit order. -/
def visitedPaths : String → List Entry → List String
  | _, [] => []
  | p, (.file n s c) :: es => entryPath p (.file n s c) :: visitedPaths p es
  | p, (.dir n c readable children) :: es =>
    entryPath p (.dir n c readable children) ::
      ((if readable then visitedPaths (p ++ "/" ++ n) children else []) ++
        visitedPaths p es)

/-! Concrete stores used to instantiate the theorems. -/

def clipEntry : Entry := Entry.file "clip1.mp4" 5000 42

/-- One 5000-byte mp4 file ingested into the empty store at time 10. -/
def clipStore : Store := ingest "/watch" 10 clipEntry emptyStore

/-- clipStore plus a jpg file ingested at time 11 (ids 1 and 2). -/
def twoStore : Store := ingest "/watch" 11 (Entry.file "pic.jpg" 7 2) clipStore

/-- Field-wise equality of two records on everything except
processed_at. -/
def sameButProcessedAt (a b : FileRecord) : Prop :=
  a.id = b.id ∧ a.path = b.path ∧ a.filename = b.filename
  ∧ a.parent_directory = b.parent_directory ∧ a.file_type = b.file_type
  ∧ a.size_bytes = b.size_bytes ∧ a.created_at = b.created_at
  ∧ a.discovered_at = b.discovered_at ∧ a.processed = b.processed
  ∧ a.is_directory = b.is_directory

/-- The per-row updater of the UPDATE statements. -/
def markRow (file_id now : Nat) (r : FileRecord) : FileRecord :=
  if r.id = file_id then { r with processed := true, processed_at := some now } else r

/-- Extract the store from a mark result, with a default for the error
case. -/
def exStore (e : Except DbError Store) (d : Store) : Store :=
  match e with
  | .ok s => s
  | .error _ => d

/-- Extract the store from a batch result, with a default. -/
def exBatch (e : Except DbError (Store × Nat)) (d : Store) : Store :=
  match e with
  | .ok (s, _) => s
  | .error _ => d

/-- The clip store after mark_as_processed at time 5. -/
def c3Store1 : Store := exStore (mark_as_processed 1 5 clipStore) emptyStore

/-- c3Store1 after a second mark_as_processed of the same id at time 9. -/
def c3Store2 : Store := exStore (mark_as_processed 1 9 c3Store1) emptyStore

/-- The per-row updater of the batch UPDATE statement. -/
def batchRow (ids : List Nat) (now : Nat) (r : FileRecord) : FileRecord :=
  if ids.contains r.id then { r with processed := true, processed_at := some now }
  else r

/-- The clip record as it stands in c3Store1 (processed at time 5). -/
def clipRecMarked : FileRecord :=
  { id := 1, path := "/watch/clip1.mp4", filename := "clip1.mp4",
    parent_directory := "/watch", file_type := "video", size_bytes := 5000,
    created_at := 42, discovered_at := 10, processed := true,
    processed_at := some 5, is_directory := false }

/-- twoStore after the batch call on ids 1, 2 and the unknown 99. -/
def twoStoreBatch : Store := exBatch (process_batch [1, 2, 99] 5 twoStore) emptyStore

/-- Spec-side predicate, following the spec's words: plain
case-sensitive substring containment (no wildcards, no case folding),
for comparison against the code's LIKE matching. -/
def specSubstrAux (p : List Char) : List Char → Bool
  | [] => p.isEmpty
  | c :: cs => List.isPrefixOf p (c :: cs) || specSubstrAux p cs

/-- Spec-side "substring match on filename and parent directory". -/
def specSubstr (pat s : String) : Bool := specSubstrAux pat.data s.data

/-- The clip record as first inserted (unprocessed). -/
def clipRec : FileRecord :=
  { id := 1, path := "/watch/clip1.mp4", filename := "clip1.mp4",
    parent_directory := "/watch", file_type := "video", size_bytes := 5000,
    created_at := 42, discovered_at := 10, processed := false,
    processed_at := none, is_directory := false }

/-- The jpg record as inserted into twoStore (id 2). -/
def picRec : FileRecord :=
  { id := 2, path := "/watch/pic.jpg", filename := "pic.jpg",
    parent_directory := "/watch", file_type := "image", size_bytes := 7,
    created_at := 2, discovered_at := 11, processed := false,
    processed_at := none, is_directory := false }

/-- A sample tree: a file, a readable subdirectory with a file, and an
unreadable subdirectory whose child must not be visited. -/
def demoTree : List Entry :=
  [Entry.file "a.jpg" 10 1,
   Entry.dir "sub" 2 true [Entry.file "b.mp4" 20 3],
   Entry.dir "secret" 4 false [Entry.file "c.txt" 30 5]]

/-! Helper lemmas about the insert-if-absent write. -/

lemma countP_path_le_one {l : List FileRecord} (p : String)
    (h : l.Pairwise (fun a b => a.path ≠ b.path)) :
    l.countP (fun r => r.path = p) ≤ 1 := by
  induction l with
  | nil => simp
  | cons a l ih =>
    rcases List.pairwise_cons.mp h with ⟨ha, hl⟩
    by_cases hap : a.path = p
    · have hzero : l.countP (fun r => r.path = p) = 0 := by
        refine List.countP_eq_zero.mpr ?_
        intro b hb
        simpa using hap ▸ (ha b hb).symm
      simp [List.countP_cons, hap, hzero]
    · simpa [List.countP_cons, hap] using ih hl

lemma insert_mem_path (path filename parent ftype : String) (size ctime : Nat)
    (isDir : Bool) (now : Nat) (st : Store) :
    1 ≤ countPath (insert_file_to_db path filename parent ftype size ctime isDir now st) path := by
  unfold insert_file_to_db countPath
  by_cases h : st.recs.any (fun r => r.path = path)
  · rcases List.any_eq_true.mp h with ⟨r, hr, hrp⟩
    simp only [h, if_true]
    have : 0 < st.recs.countP (fun r => r.path = path) :=
      List.countP_pos_iff.mpr ⟨r, hr, hrp⟩
    omega
  · simp [h, List.countP_append, List.countP_cons]

lemma insert_preserves_mem (path filename parent ftype : String) (size ctime : Nat)
    (isDir : Bool) (now : Nat) (st : Store) (r : FileRecord) (hr : r ∈ st.recs) :
    r ∈ (insert_file_to_db path filename parent ftype size ctime isDir now st).recs := by
  unfold insert_file_to_db
  by_cases h : st.recs.any (fun r => r.path = path) <;> simp [h, hr]

lemma insert_preserves_unique (path filename parent ftype : String) (size ctime : Nat)
    (isDir : Bool) (now : Nat) (st : Store) (h : uniquePaths st) :
    uniquePaths (insert_file_to_db path filename parent ftype size ctime isDir now st) := by
  unfold insert_file_to_db
  by_cases hany : st.recs.any (fun r => r.path = path)
  · simpa [hany] using h
  · have hnot : ∀ r ∈ st.recs, r.path ≠ path := by
      intro r hr
      have := List.any_eq_false.mp (Bool.not_eq_true _ ▸ hany) r hr
      simpa using this
    simp only [hany, if_false]
    unfold uniquePaths at h ⊢
    refine List.pairwise_append.mpr ⟨h, List.pairwise_singleton _ _, ?_⟩
    intro a ha b hb
    simp only [List.mem_singleton] at hb
    subst hb
    simpa using hnot a ha

lemma any_path_of_countPath_pos (st : Store) (p : String)
    (h : 1 ≤ countPath st p) : st.recs.any (fun r => r.path = p) = true := by
  unfold countPath at h
  rcases List.countP_pos_iff.mp h with ⟨r, hr, hrp⟩
  exact List.any_eq_true.mpr ⟨r, hr, hrp⟩

lemma insert_noop_of_present (path fn par ft : String) (size ctime : Nat)
    (isDir : Bool) (now : Nat) (st : Store)
    (hany : st.recs.any (fun r => r.path = path) = true) :
    insert_file_to_db path fn par ft size ctime isDir now st = st := by
  unfold insert_file_to_db
  rw [if_pos hany]

lemma insert_second_noop (path filename parent ftype : String)
    (size size2 ctime ctime2 : Nat) (isDir isDir2 : Bool) (n1 n2 : Nat)
    (fn2 par2 ft2 : String) (st : Store) :
    insert_file_to_db path fn2 par2 ft2 size2 ctime2 isDir2 n2
      (insert_file_to_db path filename parent ftype size ctime isDir n1 st)
    = insert_file_to_db path filename parent ftype size ctime isDir n1 st :=
  insert_noop_of_present _ _ _ _ _ _ _ _ _
    (any_path_of_countPath_pos _ _ (insert_mem_path path filename parent ftype size ctime isDir n1 st))

lemma countPath_eq_one_of_unique_mem (st : Store) (p : String)
    (hu : uniquePaths st) (hmem : 1 ≤ countPath st p) : countPath st p = 1 := by
  have := countP_path_le_one p hu
  unfold countPath at hmem ⊢
  omega

/-- C1: ingesting the same entry twice leaves exactly one record with
its path: the second ingestion is a no-op on the whole store, and path
uniqueness is preserved by every ingestion. -/
theorem ingest_idempotent_spec (parent : String) (e : Entry) (n1 n2 : Nat)
    (st : Store) (h : uniquePaths st) :
    ingest parent n2 e (ingest parent n1 e st) = ingest parent n1 e st
    ∧ countPath (ingest parent n2 e (ingest parent n1 e st)) (entryPath parent e) = 1
    ∧ uniquePaths (ingest parent n1 e st) := by
  have hnoop : ingest parent n2 e (ingest parent n1 e st) = ingest parent n1 e st := by
    unfold ingest
    exact insert_second_noop _ _ _ _ _ _ _ _ _ _ _ _ _ _ _ st
  have huniq : uniquePaths (ingest parent n1 e st) :=
    insert_preserves_unique _ _ _ _ _ _ _ _ st h
  have hcnt : countPath (ingest parent n2 e (ingest parent n1 e st)) (entryPath parent e) = 1 := by
    rw [hnoop]
    exact countPath_eq_one_of_unique_mem _ _ huniq (insert_mem_path _ _ _ _ _ _ _ _ st)
  exact ⟨hnoop, hcnt, huniq⟩

/-- Witness for C1 at a concrete input: the clip entry ingested twice
into the empty store yields exactly one matching record. -/
theorem ingest_idempotent_spec_witness :
    countPath (ingest "/watch" 11 clipEntry (ingest "/watch" 10 clipEntry emptyStore))
      (entryPath "/watch" clipEntry) = 1 :=
  (ingest_idempotent_spec "/watch" clipEntry 10 11 emptyStore
    (by simp [uniquePaths, emptyStore])).2.1

/-- C5: the classifier sends every directory to "directory" regardless
of name, and classifies files by the lower-cased extension: .jpg/.jpeg
to "image", .mp4/.blk to "video", anything else to "other"; in
particular a.jpg and b.JPEG are images, c.mp4 and d.blk are videos and
e.txt is "other". -/
theorem get_file_type_spec :
    (∀ n, get_file_type true n = "directory")
    ∧ (∀ n, (lowerStr (suffixOf n) = ".jpg" ∨ lowerStr (suffixOf n) = ".jpeg") →
        get_file_type false n = "image")
    ∧ (∀ n, (lowerStr (suffixOf n) = ".mp4" ∨ lowerStr (suffixOf n) = ".blk") →
        get_file_type false n = "video")
    ∧ (∀ n, lowerStr (suffixOf n) ≠ ".jpg" → lowerStr (suffixOf n) ≠ ".jpeg" →
        lowerStr (suffixOf n) ≠ ".mp4" → lowerStr (suffixOf n) ≠ ".blk" →
        get_file_type false n = "other")
    ∧ get_file_type false "a.jpg" = "image"
    ∧ get_file_type false "b.JPEG" = "image"
    ∧ get_file_type false "c.mp4" = "video"
    ∧ get_file_type false "d.blk" = "video"
    ∧ get_file_type false "e.txt" = "other" := by
  refine ⟨fun n => rfl, fun n h => ?_, fun n h => ?_, fun n h1 h2 h3 h4 => ?_,
    by decide, by decide, by decide, by decide, by decide⟩
  · rcases h with h | h <;> simp [get_file_type, h]
  · rcases h with h | h <;> simp [get_file_type, h]
  · simp [get_file_type, h1, h2, h3, h4]

/-- Witness for C5: the case-insensitive image clause applied to a
concrete uppercase extension. -/
theorem get_file_type_spec_witness : get_file_type false "x.JPEG" = "image" :=
  get_file_type_spec.2.1 "x.JPEG" (by decide)

/-! Helper lemmas about the processing transitions. -/

lemma sameButProcessedAt_refl (a : FileRecord) : sameButProcessedAt a a := by
  unfold sameButProcessedAt
  exact ⟨rfl, rfl, rfl, rfl, rfl, rfl, rfl, rfl, rfl, rfl⟩

lemma forall2_map_self {α : Type} (l : List α) (f : α → α) (R : α → α → Prop)
    (h : ∀ a ∈ l, R a (f a)) : List.Forall₂ R l (l.map f) := by
  induction l with
  | nil => exact List.Forall₂.nil
  | cons a l ih =>
    exact List.Forall₂.cons (h a (List.mem_cons_self a l))
      (ih (fun b hb => h b (List.mem_cons_of_mem a hb)))

lemma markRow_id (file_id now : Nat) (r : FileRecord) :
    (markRow file_id now r).id = r.id := by
  unfold markRow
  by_cases h : r.id = file_id <;> simp [h]

lemma mark_as_processed_eq (file_id now : Nat) (st : Store) :
    mark_as_processed file_id now st =
      (if st.recs.countP (fun r => r.id == file_id) = 0 then .error .notFound
       else .ok { st with recs := st.recs.map (markRow file_id now) }) := by
  unfold mark_as_processed markRow
  rfl

/-- C4: mark_as_processed fails with NotFound exactly when no record
has the id; on success the record with that id is processed with
processed_at set to the call time, every other record is untouched,
and re-invoking the operation succeeds again changing nothing but
(possibly) processed_at. -/
theorem mark_as_processed_spec (file_id now now2 : Nat) (st : Store) :
    (mark_as_processed file_id now st = .error .notFound ↔ ∀ r ∈ st.recs, r.id ≠ file_id)
    ∧ (∀ st', mark_as_processed file_id now st = .ok st' →
        (∀ r ∈ st'.recs, r.id = file_id → r.processed = true ∧ r.processed_at = some now)
        ∧ (∀ r ∈ st.recs, r.id ≠ file_id → r ∈ st'.recs)
        ∧ (mark_as_processed file_id now2 st' =
            .ok { st' with recs := st'.recs.map (markRow file_id now2) }
          ∧ List.Forall₂ sameButProcessedAt st'.recs
              (st'.recs.map (markRow file_id now2)))) := by
  rw [mark_as_processed_eq]
  constructor
  · by_cases hm : st.recs.countP (fun r => r.id == file_id) = 0
    · simp only [hm, if_true, reduceIte]
      constructor
      · intro _ r hr
        have := List.countP_eq_zero.mp hm r hr
        simpa using this
      · intro _
        trivial
    · simp only [hm, if_false, reduceIte]
      constructor
      · intro h
        exact absurd h (by simp)
      · intro hall
        rcases List.countP_pos_iff.mp (Nat.pos_of_ne_zero hm) with ⟨r, hr, hid⟩
        exact absurd (by simpa using hid) (hall r hr)
  · intro st' hok
    by_cases hm : st.recs.countP (fun r => r.id == file_id) = 0
    · rw [if_pos hm] at hok
      exact absurd hok (by simp)
    · rw [if_neg hm] at hok
      have hst' : st' = { st with recs := st.recs.map (markRow file_id now) } :=
        (Except.ok.injEq _ _ ▸ hok).symm
      have hproc : ∀ r ∈ st'.recs, r.id = file_id →
          r.processed = true ∧ r.processed_at = some now := by
        intro r hr hid
        rw [hst'] at hr
        rcases List.mem_map.mp hr with ⟨a, ha, hfa⟩
        unfold markRow at hfa
        by_cases haid : a.id = file_id
        · rw [if_pos haid] at hfa
          rw [← hfa]
          exact ⟨rfl, rfl⟩
        · rw [if_neg haid] at hfa
          exact absurd (hfa ▸ hid) haid
      refine ⟨hproc, ?_, ?_, ?_⟩
      · intro r hr hneq
        rw [hst']
        refine List.mem_map.mpr ⟨r, hr, ?_⟩
        unfold markRow
        rw [if_neg hneq]
      · have hcnt : st'.recs.countP (fun r => r.id == file_id) =
            st.recs.countP (fun r => r.id == file_id) := by
          rw [hst']
          simp only [List.countP_map]
          refine List.countP_congr ?_
          intro a _
          simp [Function.comp, markRow_id]
        rw [mark_as_processed_eq, if_neg (hcnt ▸ hm)]
      · refine forall2_map_self _ _ _ ?_
        intro a ha
        unfold markRow
        by_cases haid : a.id = file_id
        · rw [if_pos haid]
          have := (hproc a ha haid).1
          unfold sameButProcessedAt
          exact ⟨rfl, rfl, rfl, rfl, rfl, rfl, rfl, rfl, this, rfl⟩
        · rw [if_neg haid]
          exact sameButProcessedAt_refl a

/-- Witness for C4: id 99 is absent from the one-record clip store, so
marking it fails with NotFound. -/
theorem mark_as_processed_spec_witness :
    mark_as_processed 99 5 clipStore = .error .notFound :=
  (mark_as_processed_spec 99 5 7 clipStore).1.mpr (by decide)

/-- Counterexample to C3: re-invoking mark_as_processed on the already
processed record 1 at a later time moves processed_at from some 5 to
some 9, so processed_at is not set exactly once. -/
theorem processed_at_set_once_cex :
    (c3Store1.recs.map (fun r => r.processed_at) = [some 5])
    ∧ (c3Store2.recs.map (fun r => r.processed_at) = [some 9])
    ∧ mark_as_processed 1 9 c3Store1 = .ok c3Store2 := by
  refine ⟨by decide, by decide, ?_⟩
  rfl

lemma process_batch_eq (ids : List Nat) (now : Nat) (st : Store) :
    process_batch ids now st =
      .ok ({ st with recs := st.recs.map (batchRow ids now) },
           st.recs.countP (fun r => ids.contains r.id)) := by
  unfold process_batch batchRow
  rfl

/-- C3 amended: every successful mark_as_processed sets the target
record's processed_at to the call's current time (so a re-invocation
overwrites it with the newer timestamp), every successful batch mark
does the same for each targeted record, and ingestion never removes or
alters existing records. -/
theorem processed_at_amended_spec (file_id now : Nat) (ids : List Nat) (st : Store)
    (parent : String) (e : Entry) (n : Nat) :
    (∀ st', mark_as_processed file_id now st = .ok st' →
      ∀ r ∈ st'.recs, r.id = file_id → r.processed_at = some now)
    ∧ (∀ st' c, process_batch ids now st = .ok (st', c) →
      ∀ r ∈ st'.recs, r.id ∈ ids → r.processed_at = some now)
    ∧ (∀ r ∈ st.recs, r ∈ (ingest parent n e st).recs) := by
  refine ⟨?_, ?_, ?_⟩
  · intro st' hok r hr hid
    rw [mark_as_processed_eq] at hok
    by_cases hm : st.recs.countP (fun r => r.id == file_id) = 0
    · rw [if_pos hm] at hok
      exact absurd hok (by simp)
    · rw [if_neg hm] at hok
      have hst' : st' = { st with recs := st.recs.map (markRow file_id now) } :=
        (Except.ok.injEq _ _ ▸ hok).symm
      rw [hst'] at hr
      rcases List.mem_map.mp hr with ⟨a, _, hfa⟩
      unfold markRow at hfa
      by_cases haid : a.id = file_id
      · rw [if_pos haid] at hfa
        rw [← hfa]
      · rw [if_neg haid] at hfa
        exact absurd (hfa ▸ hid) haid
  · intro st' c hok r hr hid
    rw [process_batch_eq] at hok
    have hpair := Except.ok.inj hok
    have hst' : st' = { st with recs := st.recs.map (batchRow ids now) } :=
      (congrArg Prod.fst hpair).symm
    rw [hst'] at hr
    rcases List.mem_map.mp hr with ⟨a, _, hfa⟩
    unfold batchRow at hfa
    by_cases haid : ids.contains a.id
    · rw [if_pos haid] at hfa
      rw [← hfa]
    · rw [if_neg haid] at hfa
      subst hfa
      exact absurd (List.elem_iff.mpr hid) haid
  · intro r hr
    exact insert_preserves_mem _ _ _ _ _ _ _ _ st r hr

/-- Witness for the amended C3: the marked clip record carries
processed_at = some 5 after the transition at time 5. -/
theorem processed_at_amended_spec_witness : clipRecMarked.processed_at = some 5 :=
  (processed_at_amended_spec 1 5 [1] clipStore "/w" clipEntry 0).1
    c3Store1 (by rfl) clipRecMarked (by decide) (by decide)

/-- C2: for every list of ids the batch call succeeds, returns the
number of records whose id occurs in the list (ids with no record are
silently skipped, raising no error), marks exactly those records
processed with processed_at set, keeps every other record untouched
and never drops a row. -/
theorem process_batch_spec (ids : List Nat) (now : Nat) (st : Store) :
    (process_batch ids now st).isOk = true
    ∧ ∀ st' c, process_batch ids now st = .ok (st', c) →
        c = (st.recs.filter (fun r => ids.contains r.id)).length
        ∧ (∀ r ∈ st'.recs, r.id ∈ ids → r.processed = true ∧ r.processed_at = some now)
        ∧ (∀ r ∈ st.recs, r.id ∉ ids → r ∈ st'.recs)
        ∧ st'.recs.length = st.recs.length := by
  rw [process_batch_eq]
  refine ⟨rfl, ?_⟩
  intro st' c hok
  have hpair : ({ st with recs := st.recs.map (batchRow ids now) },
      st.recs.countP (fun r => ids.contains r.id)) = (st', c) :=
    Except.ok.inj hok
  have hst' : st' = { st with recs := st.recs.map (batchRow ids now) } :=
    (congrArg Prod.fst hpair).symm
  have hc : c = st.recs.countP (fun r => ids.contains r.id) :=
    (congrArg Prod.snd hpair).symm
  refine ⟨by rw [hc, List.countP_eq_length_filter], ?_, ?_, ?_⟩
  · intro r hr hid
    rw [hst'] at hr
    rcases List.mem_map.mp hr with ⟨a, _, hfa⟩
    unfold batchRow at hfa
    by_cases haid : ids.contains a.id
    · rw [if_pos haid] at hfa
      rw [← hfa]
      exact ⟨rfl, rfl⟩
    · rw [if_neg haid] at hfa
      subst hfa
      exact absurd (List.elem_iff.mpr hid) haid
  · intro r hr hnid
    rw [hst']
    refine List.mem_map.mpr ⟨r, hr, ?_⟩
    unfold batchRow
    rw [if_neg (fun hc => hnid (List.elem_iff.mp hc))]
  · rw [hst']
    exact List.length_map _ _

/-- Witness for C2: on the two-record store the batch call with ids 1,
2 and the unknown id 99 succeeds and its changed-row count is 2. -/
theorem process_batch_spec_witness :
    (process_batch [1, 2, 99] 5 twoStore).isOk = true
    ∧ 2 = (twoStore.recs.filter (fun r => [1, 2, 99].contains r.id)).length :=
  ⟨(process_batch_spec [1, 2, 99] 5 twoStore).1,
   ((process_batch_spec [1, 2, 99] 5 twoStore).2 twoStoreBatch 2 (by rfl)).1⟩

/-- Counterexample to C10 as stated: SQLite accepts an empty IN list
(WHERE id IN () is valid and matches no rows), so the empty-list batch
call does not fail: on the clip store it succeeds, changes nothing and
returns a count of 0. -/
theorem process_batch_empty_count_zero_cex :
    process_batch [] 0 clipStore = .ok (clipStore, 0) := by
  rfl

/-- C10 amended: calling the batch endpoint with an empty id list
succeeds for every store and clock value: WHERE id IN () matches no
rows, so the store is returned unchanged with a count of 0. -/
theorem process_batch_empty_in_spec (now : Nat) (st : Store) :
    process_batch [] now st = .ok (st, 0) := by
  rw [process_batch_eq]
  have hmap : st.recs.map (batchRow [] now) = st.recs := by
    induction st.recs with
    | nil => rfl
    | cons a l ih =>
      simp only [List.map_cons, ih]
      rfl
  have hcnt : st.recs.countP (fun r => List.contains [] r.id) = 0 :=
    List.countP_eq_zero.mpr (fun a _ h => nomatch h)
  rw [hmap, hcnt]

/-! Helper lemmas about the two ORDER BY ... LIMIT query shapes. -/

lemma mem_take_mergeSort {l : List FileRecord} {le : FileRecord → FileRecord → Bool}
    {k : Nat} {r : FileRecord} (h : r ∈ (l.mergeSort le).take k) : r ∈ l :=
  List.mem_mergeSort.mp (List.take_subset k _ h)

lemma pairwise_take_mergeSort_asc (l : List FileRecord) (k : Nat) :
    ((l.mergeSort byDiscoveredAsc).take k).Pairwise
      (fun a b => a.discovered_at ≤ b.discovered_at) := by
  have hs := @List.sorted_mergeSort FileRecord byDiscoveredAsc
    (fun a b c hab hbc => by
      simp only [byDiscoveredAsc, decide_eq_true_eq] at hab hbc ⊢
      omega)
    (fun a b => by
      simp only [byDiscoveredAsc]
      rcases Nat.le_total a.discovered_at b.discovered_at with h | h <;> simp [h])
    l
  exact List.Pairwise.sublist (List.take_sublist k _)
    (hs.imp (fun h => by simpa [byDiscoveredAsc, decide_eq_true_eq] using h))

lemma pairwise_take_mergeSort_desc (l : List FileRecord) (k : Nat) :
    ((l.mergeSort byDiscoveredDesc).take k).Pairwise
      (fun a b => b.discovered_at ≤ a.discovered_at) := by
  have hs := @List.sorted_mergeSort FileRecord byDiscoveredDesc
    (fun a b c hab hbc => by
      simp only [byDiscoveredDesc, decide_eq_true_eq] at hab hbc ⊢
      omega)
    (fun a b => by
      simp only [byDiscoveredDesc]
      rcases Nat.le_total a.discovered_at b.discovered_at with h | h <;> simp [h])
    l
  exact List.Pairwise.sublist (List.take_sublist k _)
    (hs.imp (fun h => by simpa [byDiscoveredDesc, decide_eq_true_eq] using h))

/-- C6 amended: the unprocessed queue returns at most limit records,
each unprocessed and non-directory (and of the supplied file_type when
that filter is a nonempty string; an empty string, like an absent
filter, imposes no constraint), sorted by discovered_at ascending. -/
theorem get_unprocessed_files_spec (limit : Nat) (ftq : Option String) (st : Store) :
    (get_unprocessed_files limit ftq st).length ≤ limit
    ∧ (∀ r ∈ get_unprocessed_files limit ftq st,
        r.processed = false ∧ r.is_directory = false
        ∧ ∀ ft, ftq = some ft → ft ≠ "" → r.file_type = ft)
    ∧ (get_unprocessed_files limit ftq st).Pairwise
        (fun a b => a.discovered_at ≤ b.discovered_at) := by
  rcases ftq with _ | ft
  · refine ⟨List.length_take_le _ _, ?_, pairwise_take_mergeSort_asc _ _⟩
    intro r hr
    have hcond := (List.mem_filter.mp (mem_take_mergeSort hr)).2
    simp only [Bool.and_eq_true, Bool.not_eq_true'] at hcond
    exact ⟨hcond.1, hcond.2, fun ft h => by cases h⟩
  · by_cases hft : ft = ""
    · subst hft
      simp only [get_unprocessed_files]
      rw [if_neg (by simp)]
      refine ⟨List.length_take_le _ _, ?_, pairwise_take_mergeSort_asc _ _⟩
      intro r hr
      have hcond := (List.mem_filter.mp (mem_take_mergeSort hr)).2
      simp only [Bool.and_eq_true, Bool.not_eq_true'] at hcond
      refine ⟨hcond.1, hcond.2, ?_⟩
      intro ft' h hne
      exact absurd (Option.some.inj h).symm hne
    · simp only [get_unprocessed_files]
      rw [if_pos hft]
      refine ⟨List.length_take_le _ _, ?_, pairwise_take_mergeSort_asc _ _⟩
      intro r hr
      have hcond := (List.mem_filter.mp (mem_take_mergeSort hr)).2
      simp only [Bool.and_eq_true, Bool.not_eq_true', beq_iff_eq] at hcond
      refine ⟨hcond.1.1, hcond.1.2, ?_⟩
      intro ft' h _
      exact (Option.some.inj h) ▸ hcond.2

/-- Witness for the amended C6: the clip record is returned by the
"video"-filtered queue and the theorem yields its type equation. -/
theorem get_unprocessed_files_spec_witness : clipRec.file_type = "video" :=
  ((get_unprocessed_files_spec 100 (some "video") clipStore).2.1 clipRec
    (by simp [get_unprocessed_files, clipStore, clipEntry, ingest, insert_file_to_db,
      entryPath, emptyStore, get_file_type, lowerStr, suffixOf, rfindDot,
      Entry.name, Entry.isDir, Entry.sizeBytes, Entry.ctime, clipRec])).2.2
    "video" rfl (by decide)

/-- Counterexample to C6 as stated: with the empty string supplied as
file_type the query drops the type filter entirely (Python truthiness),
so it returns the video record, whose file_type is not "". -/
theorem get_unprocessed_files_empty_type_cex :
    ((get_unprocessed_files 100 (some "") clipStore).map (fun r => r.file_type)
      = ["video"])
    ∧ "video" ≠ "" := by
  refine ⟨?_, by decide⟩
  simp [get_unprocessed_files, clipStore, clipEntry, ingest, insert_file_to_db,
    entryPath, emptyStore, get_file_type, lowerStr, suffixOf, rfindDot,
    Entry.name, Entry.isDir, Entry.sizeBytes, Entry.ctime]

/-- C7 amended: search returns at most limit records, each
non-directory and satisfying every supplied filter, where the filename
and parent-directory filters are matched with SQLite LIKE against the
filter wrapped in percent signs (ASCII-case-insensitively, % and _
acting as wildcards), the file_type filter is an exact comparison, and
absent or empty-string filters impose no constraint; results are
sorted by discovered_at descending. -/
theorem search_files_spec (fq dq tq : Option String) (limit : Nat) (st : Store) :
    (search_files fq dq tq limit st).length ≤ limit
    ∧ (∀ r ∈ search_files fq dq tq limit st,
        r.is_directory = false
        ∧ (∀ f, fq = some f → f ≠ "" → sqliteLike ("%" ++ f ++ "%") r.filename = true)
        ∧ (∀ d, dq = some d → d ≠ "" → sqliteLike ("%" ++ d ++ "%") r.parent_directory = true)
        ∧ (∀ t, tq = some t → t ≠ "" → r.file_type = t))
    ∧ (search_files fq dq tq limit st).Pairwise
        (fun a b => b.discovered_at ≤ a.discovered_at) := by
  refine ⟨List.length_take_le _ _, ?_, pairwise_take_mergeSort_desc _ _⟩
  intro r hr
  have hcond := (List.mem_filter.mp (mem_take_mergeSort hr)).2
  simp only [Bool.and_eq_true, Bool.not_eq_true'] at hcond
  obtain ⟨⟨⟨hdir, h1⟩, h2⟩, h3⟩ := hcond
  refine ⟨hdir, ?_, ?_, ?_⟩
  · intro f hf hne
    subst hf
    have h1' : (if f ≠ "" then sqliteLike ("%" ++ f ++ "%") r.filename else true) = true := h1
    rwa [if_pos hne] at h1'
  · intro d hd hne
    subst hd
    have h2' : (if d ≠ "" then sqliteLike ("%" ++ d ++ "%") r.parent_directory else true) = true := h2
    rwa [if_pos hne] at h2'
  · intro t ht hne
    subst ht
    have h3' : (if t ≠ "" then r.file_type == t else true) = true := h3
    rw [if_pos hne] at h3'
    exact beq_iff_eq.mp h3'

/-- Witness for the amended C7: searching twoStore for filename "PIC"
returns the pic record, and the theorem yields its LIKE match. -/
theorem search_files_spec_witness : sqliteLike "%PIC%" picRec.filename = true :=
  ((search_files_spec (some "PIC") none none 100 twoStore).2.1 picRec
    (by simp [search_files, twoStore, clipStore, clipEntry, ingest, insert_file_to_db,
      entryPath, emptyStore, get_file_type, lowerStr, suffixOf, rfindDot,
      Entry.name, Entry.isDir, Entry.sizeBytes, Entry.ctime, sqliteLike, likeMatch,
      List.mergeSort, picRec])).2.1
    "PIC" rfl (by decide)

/-! Helper lemmas for the aggregate counts of get_stats. -/

lemma countP_and_split {α : Type} (l : List α) (p q : α → Bool) :
    l.countP (fun a => p a && q a) + l.countP (fun a => !p a && q a) = l.countP q := by
  induction l with
  | nil => simp
  | cons a l ih =>
    by_cases hp : p a <;> by_cases hq : q a <;>
      simp [List.countP_cons, hp, hq] <;> omega

lemma countP_not_split {α : Type} (l : List α) (p : α → Bool) :
    l.countP p + l.countP (fun a => !p a) = l.length := by
  induction l with
  | nil => simp
  | cons a l ih =>
    by_cases hp : p a <;> simp [List.countP_cons, hp] <;> omega

/-- C9: stats counts are consistent (processed plus unprocessed files
equals the non-directory total, and files plus directories exhaust the
table), and on the store holding the single 5000-byte clip1.mp4 the
response is total_files 1, one "video" in by_type, and a total size of
round(5000/1048576, 2) megabytes. -/
theorem get_stats_spec :
    (∀ st, (get_stats st).processed_files + (get_stats st).unprocessed_files
      = (get_stats st).total_files)
    ∧ (∀ st, (get_stats st).total_files + (get_stats st).total_directories
      = st.recs.length)
    ∧ get_stats clipStore =
        { total_files := 1, total_directories := 0, processed_files := 0,
          unprocessed_files := 1, by_type := [("video", 1)],
          total_size_mb := pyRound2 ((5000 : ℚ) / 1048576) } := by
  refine ⟨fun st => ?_, fun st => ?_, ?_⟩
  · simp only [get_stats]
    rw [← List.countP_eq_length_filter]
    exact countP_and_split st.recs (fun r => r.processed) (fun r => !r.is_directory)
  · simp only [get_stats]
    rw [← List.countP_eq_length_filter]
    have h := countP_not_split st.recs (fun r => r.is_directory)
    omega
  · have hrecs : clipStore.recs = [clipRec] := by decide
    simp only [get_stats, hrecs, Stats.mk.injEq]
    refine ⟨by decide, by decide, by decide, by decide, by decide, ?_⟩
    norm_num [clipRec]

/-- Counterexample to C7 as stated: SQLite LIKE is case-insensitive
for ASCII, so searching for filename "PIC" returns pic.jpg even though
"PIC" is not a substring of "pic.jpg". -/
theorem search_files_substring_cex :
    ((search_files (some "PIC") none none 100 twoStore).map (fun r => r.filename)
      = ["pic.jpg"])
    ∧ specSubstr "PIC" "pic.jpg" = false := by
  constructor
  · simp [search_files, twoStore, clipStore, clipEntry, ingest, insert_file_to_db,
      entryPath, emptyStore, get_file_type, lowerStr, suffixOf, rfindDot,
      Entry.name, Entry.isDir, Entry.sizeBytes, Entry.ctime, sqliteLike, likeMatch,
      List.mergeSort]
  · simp [specSubstr, specSubstrAux, List.isPrefixOf]

/-! Helper lemmas about the recursive scan. -/

lemma ingest_preserves_mem (parent : String) (now : Nat) (e : Entry) (st : Store)
    (r : FileRecord) (h : r ∈ st.recs) : r ∈ (ingest parent now e st).recs :=
  insert_preserves_mem _ _ _ _ _ _ _ _ st r h

lemma ingest_pos (parent : String) (now : Nat) (e : Entry) (st : Store) :
    1 ≤ countPath (ingest parent now e st) (entryPath parent e) :=
  insert_mem_path _ _ _ _ _ _ _ _ st

lemma countPath_pos_mono {st st' : Store} (h : ∀ r ∈ st.recs, r ∈ st'.recs)
    {q : String} (hq : 1 ≤ countPath st q) : 1 ≤ countPath st' q := by
  unfold countPath at hq ⊢
  rcases List.countP_pos_iff.mp hq with ⟨r, hr, hrp⟩
  exact List.countP_pos_iff.mpr ⟨r, h r hr, hrp⟩

lemma scan_count (now : Nat) (p : String) (es : List Entry) (st : Store) (cnt : Nat) :
    (scanList now p es st cnt).2 = cnt + countVisited es := by
  match es with
  | [] => simp [scanList, countVisited]
  | .file n s c :: es =>
    rw [scanList]
    have ht := scan_count now p es (ingest p now (.file n s c) st) (cnt + 1)
    simp only at ht ⊢
    rw [ht, countVisited]
    omega
  | .dir n c readable children :: es =>
    rw [scanList]
    cases readable with
    | true =>
      have hch := scan_count now (p ++ "/" ++ n) children
        (ingest p now (.dir n c true children) st) (cnt + 1)
      have ht := scan_count now p es
        (scanList now (p ++ "/" ++ n) children
          (ingest p now (.dir n c true children) st) (cnt + 1)).1
        (scanList now (p ++ "/" ++ n) children
          (ingest p now (.dir n c true children) st) (cnt + 1)).2
      simp only [if_true, reduceIte] at ht ⊢
      rw [ht, hch, countVisited]
      simp only [if_true, reduceIte]
      omega
    | false =>
      have ht := scan_count now p es (ingest p now (.dir n c false children) st) (cnt + 1)
      simp only [Bool.false_eq_true, if_false, reduceIte] at ht ⊢
      rw [ht, countVisited]
      simp only [Bool.false_eq_true, if_false, reduceIte]
      omega
termination_by sizeOf es
decreasing_by all_goals simp <;> omega

lemma scan_mono (now : Nat) (p : String) (es : List Entry) (st : Store) (cnt : Nat)
    (r : FileRecord) (h : r ∈ st.recs) : r ∈ (scanList now p es st cnt).1.recs := by
  match es with
  | [] => simpa [scanList] using h
  | .file n s c :: es =>
    rw [scanList]
    exact scan_mono now p es _ _ r (ingest_preserves_mem p now (.file n s c) st r h)
  | .dir n c readable children :: es =>
    rw [scanList]
    cases readable with
    | true =>
      simp only [if_true, reduceIte]
      exact scan_mono now p es _ _ r
        (scan_mono now (p ++ "/" ++ n) children _ _ r
          (ingest_preserves_mem p now (.dir n c true children) st r h))
    | false =>
      simp only [Bool.false_eq_true, if_false, reduceIte]
      exact scan_mono now p es _ _ r
        (ingest_preserves_mem p now (.dir n c false children) st r h)
termination_by sizeOf es
decreasing_by all_goals simp <;> omega

lemma scan_countPath_mono (now : Nat) (p : String) (es : List Entry) (st : Store)
    (cnt : Nat) {q : String} (hq : 1 ≤ countPath st q) :
    1 ≤ countPath (scanList now p es st cnt).1 q :=
  countPath_pos_mono (fun r hr => scan_mono now p es st cnt r hr) hq

lemma scan_visited (now : Nat) (p : String) (es : List Entry) (st : Store) (cnt : Nat) :
    ∀ q ∈ visitedPaths p es, 1 ≤ countPath (scanList now p es st cnt).1 q := by
  match es with
  | [] => simp [visitedPaths]
  | .file n s c :: es =>
    intro q hq
    rw [visitedPaths] at hq
    rw [scanList]
    simp only [List.mem_cons] at hq
    rcases hq with hq | hq
    · subst hq
      exact scan_countPath_mono now p es _ _ (ingest_pos p now (.file n s c) st)
    · exact scan_visited now p es _ _ q hq
  | .dir n c readable children :: es =>
    intro q hq
    rw [visitedPaths] at hq
    rw [scanList]
    simp only [List.mem_cons, List.mem_append] at hq
    cases readable with
    | true =>
      simp only [if_true, reduceIte] at hq ⊢
      rcases hq with hq | hq | hq
      · subst hq
        exact scan_countPath_mono now p es _ _
          (scan_countPath_mono now (p ++ "/" ++ n) children _ _
            (ingest_pos p now (.dir n c true children) st))
      · exact scan_countPath_mono now p es _ _
          (scan_visited now (p ++ "/" ++ n) children _ _ q hq)
      · exact scan_visited now p es _ _ q hq
    | false =>
      simp only [Bool.false_eq_true, if_false, reduceIte, List.not_mem_nil,
        false_or] at hq ⊢
      rcases hq with hq | hq
      · subst hq
        exact scan_countPath_mono now p es _ _
          (ingest_pos p now (.dir n c false children) st)
      · exact scan_visited now p es _ _ q hq
termination_by sizeOf es
decreasing_by all_goals simp <;> omega

/-- C8: the scan visits (and ingests) every entry reachable through
readable directories: the returned counter equals the number of
visited entries no matter what the store already contains (re-visits
of already-known paths are counted even though their ingestion is a
no-op), every visited path ends up present in the store, and a
directory whose listing raises PermissionError contributes only itself
while its siblings are still scanned. -/
theorem initial_scan_spec (now : Nat) (p : String) (es : List Entry) (st : Store)
    (cnt : Nat) :
    (scanList now p es st cnt).2 = cnt + countVisited es
    ∧ (initial_scan now p es st).2 = countVisited es
    ∧ (scanList now p es st cnt).2 = (scanList now p es emptyStore cnt).2
    ∧ (∀ q ∈ visitedPaths p es, 1 ≤ countPath (scanList now p es st cnt).1 q)
    ∧ (∀ n c ch, scanList now p (Entry.dir n c false ch :: es) st cnt
        = scanList now p es (ingest p now (Entry.dir n c false ch) st) (cnt + 1)) := by
  refine ⟨scan_count now p es st cnt, ?_, ?_, scan_visited now p es st cnt, ?_⟩
  · unfold initial_scan
    rw [scan_count]
    omega
  · rw [scan_count, scan_count]
  · intro n c ch
    rw [scanList]
    simp only [Bool.false_eq_true, if_false, reduceIte]

/-- Witness for C8: the nested file b.mp4 is a visited path of the
demo tree and the scan makes its record present. -/
theorem initial_scan_spec_witness :
    1 ≤ countPath (scanList 7 "/root" demoTree emptyStore 0).1 "/root/sub/b.mp4" :=
  (initial_scan_spec 7 "/root" demoTree emptyStore 0).2.2.2.1 "/root/sub/b.mp4"
    (by simp [demoTree, visitedPaths, entryPath, Entry.name])
